import Mathlib

/-!
Verification development for the poker hand-history statistics engine.

The subject program stores Players, HandHistories, Streets, Seats and Actions
in a relational store and derives per-player counters (hands played, VPIP)
cached in a key-value store keyed by `f'{key_name}.{player_id}'`.  Write-path
hooks (pre-save / pre-delete fire `up_redis_delete`, post-save fires
`up_redis_create`) incrementally adjust the cached counters.

Shallow embedding notes:
* Database rows become Lean structures; querysets become lists.
* The key-value cache is a map from (key name, player id) to an optional
  integer.  The program only ever uses the two key names `hands` and `vpip`,
  modelled by the two-constructor type `RKey`.
* The cache client's `incr`/`decr` treat an absent key as 0, as the real
  key-value store does.
* Fallible cache access (for the unreachable-cache analysis) is modelled with
  `Except`: each `incr`/`decr` call either succeeds or raises.
-/

namespace Poker

/-! ## Data model -/

structure Seat where
  player_id : Nat
  seat : Nat
  chips : Int
deriving DecidableEq

structure Action where
  player_id : Nat
  action : Nat
  amount : Int
  sequence_no : Int
deriving DecidableEq

structure Street where
  name : Nat
  cards : Option (List String)
  actions : List Action
deriving DecidableEq

structure HandHistory where
  seats : List Seat
  streets : List Street
deriving DecidableEq

structure Db where
  players : List Nat
  hands : List HandHistory
deriving DecidableEq

/-- The list of player ids of a hand's seats (`[seat.player_id for seat in hh.seats.all()]`). -/
def seatPlayers (hand_history : HandHistory) : List Nat :=
  hand_history.seats.map Seat.player_id

/-! ## The cache (key-value store) -/

/-- The two `key_name` prefixes the program uses: `hands` and `vpip`. -/
inductive RKey where
  | hands : RKey
  | vpip : RKey
deriving DecidableEq

def Cache : Type := RKey → Nat → Option Int

def cacheEmpty : Cache := fun _ _ => none

/-- Source `r.set(f'{k}.{p}', v)`. -/
def cset (c : Cache) (k : RKey) (p : Nat) (v : Int) : Cache :=
  fun k2 p2 => if k2 = k ∧ p2 = p then some v else c k2 p2

/-- Adjust the counter at `(k, p)` by `d`; an absent key counts as 0,
matching the store's `incr`/`decr` semantics. -/
def cadj (c : Cache) (k : RKey) (p : Nat) (d : Int) : Cache :=
  cset c k p ((c k p).getD 0 + d)

/-- Source `r.incr(f'{k}.{p}')`. -/
def cincr (c : Cache) (k : RKey) (p : Nat) : Cache := cadj c k p 1

/-- Source `r.decr(f'{k}.{p}')`. -/
def cdecr (c : Cache) (k : RKey) (p : Nat) : Cache := cadj c k p (-1)

/-- Fold `cadj` over a list of player ids. -/
def adjAll (c : Cache) (k : RKey) (d : Int) (l : List Nat) : Cache :=
  l.foldl (fun c2 p => cadj c2 k p d) c

/-- Fold `cset` over a list of player ids, writing `g p` at each key. -/
def setAll (c : Cache) (k : RKey) (g : Nat → Int) (l : List Nat) : Cache :=
  l.foldl (fun c2 p => cset c2 k p (g p)) c

/-! ## Stat definitions (`AbstractRedisStat` and `VpipStat`) -/

/-- Source `AbstractRedisStat.players_stated`: the set of player ids seated in the
hand, built by inserting each seat's `player_id` into a set.  Modelled as the
deduplicated list of seat player ids. -/
def AbstractRedisStat.players_stated (hand_history : HandHistory) : List Nat :=
  (hand_history.seats.map Seat.player_id).dedup

/-- Source `VpipStat.players_stated`: the set of player ids having at least one
action of kind Call (2), Bet (4) or Raise (5) on any street of the hand. -/
def VpipStat.players_stated (hand_history : HandHistory) : List Nat :=
  (((hand_history.streets.flatMap Street.actions).filter
      (fun a => a.action == 2 || a.action == 4 || a.action == 5)).map Action.player_id).dedup

/-- The all-zero counter (a fresh `Counter()`). -/
def zeroCtr : Nat → Nat := fun _ => 0

/-- Source `hands[pid] += 1`. -/
def bump (acc : Nat → Nat) (pid : Nat) : Nat → Nat :=
  Function.update acc pid (acc pid + 1)

/-- Source `for pid in stated: hands[pid] += 1`. -/
def bumpAll (acc : Nat → Nat) (ps : List Nat) : Nat → Nat := ps.foldl bump acc

/-- Source `AbstractRedisStat.compute`: iterate all hand histories, incrementing the
counter of every player in `players_stated(hh)`. -/
def AbstractRedisStat.compute (stated : HandHistory → List Nat) (db : Db) : Nat → Nat :=
  db.hands.foldl (fun acc hh => bumpAll acc (stated hh)) zeroCtr

/-- Source `AbstractRedisStat.reset`: full recompute; write every player's value
(0 included) back to the cache and return the computed counter.  The 1-hour
expiry set on each key is not modelled (no claim depends on the TTL value). -/
def AbstractRedisStat.reset (stated : HandHistory → List Nat) (key_name : RKey)
    (db : Db) (c : Cache) : Cache × (Nat → Nat) :=
  let hands := AbstractRedisStat.compute stated db
  (setAll c key_name (fun p => (hands p : Int)) db.players, hands)

/-- Source `AbstractRedisStat.get`: return the cached counter; on a miss run `reset`
and return the freshly computed value (a `Counter` lookup, defaulting to 0). -/
def AbstractRedisStat.get (stated : HandHistory → List Nat) (key_name : RKey)
    (db : Db) (c : Cache) (player_id : Nat) : Int :=
  match c key_name player_id with
  | some v => v
  | none => ((AbstractRedisStat.reset stated key_name db c).2 player_id : Int)

/-! ## Player properties -/

/-- Source `Player.hands_played`: `HandsPlayedStat.get(self.id)` (key name `hands`,
inherited `players_stated`). -/
def Player.hands_played (db : Db) (c : Cache) (player_id : Nat) : Int :=
  AbstractRedisStat.get AbstractRedisStat.players_stated RKey.hands db c player_id

/-- Source `Player.vpip`: `100 * VpipStat.get(self.id) / max(self.hands_played, 1)`,
with Python's true division modelled in `ℚ`. -/
def Player.vpip (db : Db) (c : Cache) (player_id : Nat) : ℚ :=
  100 * (AbstractRedisStat.get VpipStat.players_stated RKey.vpip db c player_id : ℚ) /
    ((max (Player.hands_played db c player_id) 1 : Int) : ℚ)

/-! ## Write-path hooks -/

/-- Source `HandHistory.up_redis_create`: `r.incr(f'hands.{seat.player_id}')` for
each seat of the hand. -/
def HandHistory.up_redis_create (hand_history : HandHistory) (c : Cache) : Cache :=
  hand_history.seats.foldl (fun c2 s => cincr c2 RKey.hands s.player_id) c

/-- Source `HandHistory.up_redis_delete`: `r.decr(f'hands.{seat.player_id}')` for
each seat of the hand. -/
def HandHistory.up_redis_delete (hand_history : HandHistory) (c : Cache) : Cache :=
  hand_history.seats.foldl (fun c2 s => cdecr c2 RKey.hands s.player_id) c

/-- Source `Street.up_redis_create`: delegates to `self.hand_history.up_redis_create`.
The street's parent hand is passed explicitly. -/
def Street.up_redis_create (_street : Street) (hand_history : HandHistory) (c : Cache) : Cache :=
  hand_history.up_redis_create c

/-- Source `Street.up_redis_delete`: delegates to `self.hand_history.up_redis_delete`. -/
def Street.up_redis_delete (_street : Street) (hand_history : HandHistory) (c : Cache) : Cache :=
  hand_history.up_redis_delete c

/-- Source `Action.up_redis_create`: delegates to `self.street.up_redis_create`.
The action's parent street and that street's parent hand are passed explicitly. -/
def Action.up_redis_create (_action : Action) (street : Street) (hand_history : HandHistory)
    (c : Cache) : Cache :=
  street.up_redis_create hand_history c

/-- Source `Action.up_redis_delete`: delegates to `self.street.up_redis_delete`. -/
def Action.up_redis_delete (_action : Action) (street : Street) (hand_history : HandHistory)
    (c : Cache) : Cache :=
  street.up_redis_delete hand_history c

/-! ## Fallible cache access (unreachable-cache analysis) -/

def connectionError : String := "ConnectionError"

/-- Source `r.incr` against a possibly unreachable store: raises when unreachable. -/
def rincr (reachable : Bool) (c : Cache) (k : RKey) (p : Nat) : Except String Cache :=
  if reachable then Except.ok (cincr c k p) else Except.error connectionError

/-- Source `r.decr` against a possibly unreachable store: raises when unreachable. -/
def rdecr (reachable : Bool) (c : Cache) (k : RKey) (p : Nat) : Except String Cache :=
  if reachable then Except.ok (cdecr c k p) else Except.error connectionError

/-- Source `up_redis_create` with fallible cache calls; the exception from the first
failing `incr` propagates (the hook has no exception handling). -/
def up_redis_create_f (reachable : Bool) (hand_history : HandHistory) (c : Cache) :
    Except String Cache :=
  hand_history.seats.foldlM (fun c2 s => rincr reachable c2 RKey.hands s.player_id) c

/-- Source `up_redis_delete` with fallible cache calls. -/
def up_redis_delete_f (reachable : Bool) (hand_history : HandHistory) (c : Cache) :
    Except String Cache :=
  hand_history.seats.foldlM (fun c2 s => rdecr reachable c2 RKey.hands s.player_id) c

/-- The sender model class of a save/delete, as received by the signal
handlers. -/
inductive Sender where
  | seat : Sender
  | handHistory : Sender
  | street : Sender
  | action : Sender
deriving DecidableEq

/-- Source filter in `handle_pre_save` / `handle_post_save`: the handlers
return early unless the sender is in `(Seat, HandHistory, Action)`; in
particular a `Street` save fires no cache call at all. -/
def sender_hooked (sender : Sender) : Bool :=
  sender == Sender.seat || sender == Sender.handHistory || sender == Sender.action

/-- A model save: Django sends `pre_save` (running `handle_pre_save`, i.e.
`up_redis_delete` when the sender passes the filter) before the row is
written and `post_save` (`up_redis_create`, same filter) after; an exception
in either handler propagates to the caller, and an exception in `pre_save`
prevents the database write.  A sender outside the filter (e.g. `Street`)
runs no cache call on either side. -/
def save_with_hooks (reachable : Bool) (sender : Sender) (pre_hand post_hand : HandHistory)
    (mutate : Db → Db) (db : Db) (c : Cache) : Except String (Db × Cache) := do
  let c1 ← if sender_hooked sender then up_redis_delete_f reachable pre_hand c else pure c
  let db2 := mutate db
  let c2 ← if sender_hooked sender then up_redis_create_f reachable post_hand c1 else pure c1
  return (db2, c2)

/-! ## Serializer write path (`ActionSerializer`, `PlayerName`) -/

/-- A row of the Action table as the serializer sees it. -/
structure ActionRow where
  street : Nat
  sequence_no : Int
  player : Nat
  action : Nat
  amount : Int
deriving DecidableEq

/-- Source `ActionSerializer.validate`: only when both `street` and `sequence_no`
are present in the attributes does it query for an existing row with the same
pair and reject the write. -/
def ActionSerializer.validate (rows : List ActionRow) (street : Option Nat)
    (sequence_no : Option Int) : Except (List String) Unit :=
  match street, sequence_no with
  | some st, some seq =>
    if ((rows.filter (fun r => r.street == st && r.sequence_no == seq)).length) != 0 then
      Except.error ["street", "sequence_no", "Street and sequence_no must be unique per Action"]
    else Except.ok ()
  | _, _ => Except.ok ()

/-- Source `ActionSerializer.create`: when `sequence_no` is not supplied it is set to
`Action.objects.filter(street=street).count() + 1`, then the row is stored. -/
def ActionSerializer.create (rows : List ActionRow) (street : Nat) (sequence_no : Option Int)
    (player : Nat) (action : Nat) (amount : Int) : List ActionRow × ActionRow :=
  let seq : Int :=
    match sequence_no with
    | some s => s
    | none => ((rows.filter (fun r => r.street == street)).length : Int) + 1
  let row : ActionRow :=
    { street := street, sequence_no := seq, player := player, action := action, amount := amount }
  (rows ++ [row], row)

/-- The POST flow for an Action: the framework runs `validate` on the
supplied attributes, then `create`. -/
def ActionSerializer.post (rows : List ActionRow) (street : Nat) (sequence_no : Option Int)
    (player : Nat) (action : Nat) (amount : Int) :
    Except (List String) (List ActionRow × ActionRow) :=
  match ActionSerializer.validate rows (some street) sequence_no with
  | Except.error e => Except.error e
  | Except.ok _ => Except.ok (ActionSerializer.create rows street sequence_no player action amount)

/-- Modelled from the spec: the sequence number the spec says the write path
assigns, namely "current max sequence_no for this street, plus one".  Used
only to compare the spec's description against the code's assignment. -/
def specMaxSeqSucc (rows : List ActionRow) (street : Nat) : Int :=
  (((rows.filter (fun r => r.street == street)).map ActionRow.sequence_no).foldl max 0) + 1

/-- A row of the Player table. -/
structure PlayerRow where
  id : Nat
  name : String
deriving DecidableEq

/-- A fresh surrogate id for a newly created player. -/
def freshPlayerId (players : List PlayerRow) : Nat :=
  (players.map PlayerRow.id).foldl max 0 + 1

/-- Source `PlayerName.to_internal_value`: look the player up by name; on
`ObjectDoesNotExist`, create a player with that name.  Returns the (possibly
extended) player table and the player the posted object is linked to. -/
def PlayerName.to_internal_value (players : List PlayerRow) (data : String) :
    List PlayerRow × PlayerRow :=
  match players.find? (fun r => r.name == data) with
  | some r => (players, r)
  | none =>
    let row : PlayerRow := { id := freshPlayerId players, name := data }
    (players ++ [row], row)

/-! ## Write events and the cache maintainer -/

/-- Replace the element at index `i` (out-of-range indices leave the list
unchanged). -/
def modifyAt {α : Type} : List α → Nat → (α → α) → List α
  | [], _, _ => []
  | x :: xs, 0, f => f x :: xs
  | x :: xs, Nat.succ i, f => x :: modifyAt xs i f

/-- An empty hand history, as created by a bare `HandHistory` insert. -/
def dHand : HandHistory := { seats := [], streets := [] }

/-- Creation events against the event-log store.  `h` indexes the target hand,
`i` the target street within it. -/
inductive CreateEvent where
  | newHand : CreateEvent
  | newSeat (h : Nat) (s : Seat) : CreateEvent
  | newStreet (h : Nat) (street_name : Nat) (cards : Option (List String)) : CreateEvent
  | newAction (h : Nat) (i : Nat) (a : Action) : CreateEvent
deriving DecidableEq

/-- Insert a Seat row into a hand. -/
def addSeatFn (s : Seat) (hh : HandHistory) : HandHistory :=
  { hh with seats := hh.seats ++ [s] }

/-- Insert a Street row (created with no actions) into a hand. -/
def addStreetFn (street_name : Nat) (cards : Option (List String)) (hh : HandHistory) :
    HandHistory :=
  { hh with streets := hh.streets ++ [{ name := street_name, cards := cards, actions := [] }] }

/-- Insert an Action row into street `i` of a hand. -/
def addActionFn (i : Nat) (a : Action) (hh : HandHistory) : HandHistory :=
  { hh with streets := modifyAt hh.streets i (fun st => { st with actions := st.actions ++ [a] }) }

/-- The database mutation performed by each creation event. -/
def applyEventDb (db : Db) : CreateEvent → Db
  | CreateEvent.newHand => { db with hands := db.hands ++ [dHand] }
  | CreateEvent.newSeat h s => { db with hands := modifyAt db.hands h (addSeatFn s) }
  | CreateEvent.newStreet h street_name cards =>
    { db with hands := modifyAt db.hands h (addStreetFn street_name cards) }
  | CreateEvent.newAction h i a => { db with hands := modifyAt db.hands h (addActionFn i a) }

/-- The cache updates fired by the signal handlers around each creation event:
for senders passing the handler filter (`Seat`, `HandHistory`, `Action`),
`pre_save` runs `up_redis_delete` on the pre-image (decrementing the `hands`
key of every seat of the parent hand as stored so far), the row is written,
then `post_save` runs `up_redis_create` on the post-image.  A bare
`HandHistory` insert has no seats yet, so both handler runs are no-ops, and a
`Street` save is filtered out by the handlers entirely (models the early
return for senders outside `(Seat, HandHistory, Action)`), so it fires no
cache call. -/
def hookCache (db : Db) (c : Cache) : CreateEvent → Cache
  | CreateEvent.newHand => c
  | CreateEvent.newSeat h s =>
    let old := seatPlayers (db.hands.getD h dHand)
    adjAll (adjAll c RKey.hands (-1) old) RKey.hands 1 (old ++ [s.player_id])
  | CreateEvent.newStreet _ _ _ => c
  | CreateEvent.newAction h _ _ =>
    let old := seatPlayers (db.hands.getD h dHand)
    adjAll (adjAll c RKey.hands (-1) old) RKey.hands 1 old

def applyEvent (dc : Db × Cache) (e : CreateEvent) : Db × Cache :=
  (applyEventDb dc.1 e, hookCache dc.1 dc.2 e)

def applyEvents (db : Db) (c : Cache) (es : List CreateEvent) : Db × Cache :=
  es.foldl applyEvent (db, c)

/-- Validity of a creation event, as assumed by the amended round-trip
statement: a seat must target an existing hand and must not reseat a player
already seated in that hand.  The program itself does not enforce one seat
per player per hand (no uniqueness constraint on Seat and no serializer
check); the no-reseat restriction is a hypothesis of the amended claim, and
it is necessary: a duplicate-seat creation increments the cached counter once
more while the recompute, which deduplicates seats per hand, is unchanged —
see `dup_seat_breaks_roundtrip`. -/
def eventOK (db : Db) : CreateEvent → Bool
  | CreateEvent.newHand => true
  | CreateEvent.newSeat h s =>
    decide (h < db.hands.length) &&
      decide (s.player_id ∉ AbstractRedisStat.players_stated (db.hands.getD h dHand))
  | CreateEvent.newStreet _ _ _ => true
  | CreateEvent.newAction _ _ _ => true

def eventsOK : Db → List CreateEvent → Bool
  | _, [] => true
  | db, e :: es => eventOK db e && eventsOK (applyEventDb db e) es

/-- Referential integrity: every seated player appears in the player table. -/
def dbIntegrity (db : Db) : Bool :=
  decide (∀ hh ∈ db.hands, ∀ p ∈ AbstractRedisStat.players_stated hh, p ∈ db.players)

/-- The cache-consistency invariant for the `hands` statistic: every present
`hands` key holds the authoritative recomputed value, and the key is present
for every listed player and every seated player. -/
def CacheInv (db : Db) (c : Cache) : Prop :=
  (∀ p v, c RKey.hands p = some v →
    v = (AbstractRedisStat.compute AbstractRedisStat.players_stated db p : Int)) ∧
  (∀ p, p ∈ db.players ∨ 0 < AbstractRedisStat.compute AbstractRedisStat.players_stated db p →
    (c RKey.hands p).isSome = true)

/-! ## Concrete scenario data (spec section 8) -/

/-- Player A's seat (player id 0, chips 2000). -/
def seatA : Seat := { player_id := 0, seat := 0, chips := 2000 }

/-- Player B's seat (player id 1, chips 2000). -/
def seatB : Seat := { player_id := 1, seat := 1, chips := 2000 }

/-- A's Blind (kind 0), sequence 1. -/
def blindA : Action := { player_id := 0, action := 0, amount := 50, sequence_no := 1 }

/-- B's Call (kind 2), sequence 2. -/
def callB : Action := { player_id := 1, action := 2, amount := 100, sequence_no := 2 }

/-- The Preflop street with actions [A: Blind seq 1, B: Call seq 2]. -/
def preflop1 : Street := { name := 0, cards := none, actions := [blindA, callB] }

def hand1 : HandHistory := { seats := [seatA, seatB], streets := [preflop1] }

def db1 : Db := { players := [0, 1], hands := [hand1] }

/-- The same street after B's Call was deleted. -/
def preflop1del : Street := { name := 0, cards := none, actions := [blindA] }

def hand1del : HandHistory := { seats := [seatA, seatB], streets := [preflop1del] }

/-- The database after deleting B's Call. -/
def db1del : Db := { players := [0, 1], hands := [hand1del] }

/-- The `hands` cache as populated by a full `reset` against `db1`. -/
def cache1 : Cache :=
  (AbstractRedisStat.reset AbstractRedisStat.players_stated RKey.hands db1 cacheEmpty).1

/-- A demonstration event sequence: create a second hand, then seat a new
player (id 2) in it. -/
def esDemo : List CreateEvent :=
  [CreateEvent.newHand, CreateEvent.newSeat 1 { player_id := 2, seat := 0, chips := 500 }]

/-! ## Pointwise cache lemmas -/

theorem cset_apply_same (c : Cache) (k : RKey) (p : Nat) (v : Int) :
    cset c k p v k p = some v := by
  simp [cset]

theorem cset_apply_other {k2 k : RKey} {p2 p : Nat} (c : Cache) (v : Int)
    (h : ¬(k2 = k ∧ p2 = p)) : cset c k p v k2 p2 = c k2 p2 := by
  simp only [cset, if_neg h]

theorem cadj_apply_same (c : Cache) (k : RKey) (p : Nat) (d : Int) :
    cadj c k p d k p = some ((c k p).getD 0 + d) :=
  cset_apply_same c k p ((c k p).getD 0 + d)

theorem cadj_apply_other {k2 k : RKey} {p2 p : Nat} (c : Cache) (d : Int)
    (h : ¬(k2 = k ∧ p2 = p)) : cadj c k p d k2 p2 = c k2 p2 :=
  cset_apply_other c ((c k p).getD 0 + d) h

theorem adjAll_cons (c : Cache) (k : RKey) (d : Int) (q : Nat) (l : List Nat) :
    adjAll c k d (q :: l) = adjAll (cadj c k q d) k d l := rfl

theorem adjAll_apply_not_mem {k2 k : RKey} {p : Nat} :
    ∀ (l : List Nat) (c : Cache) (d : Int), k2 ≠ k ∨ p ∉ l →
      adjAll c k d l k2 p = c k2 p := by
  intro l
  induction l with
  | nil => intro c d _; rfl
  | cons q l ih =>
    intro c d h
    rw [adjAll_cons]
    have hq : ¬(k2 = k ∧ p = q) := by
      rcases h with h | h
      · exact fun hc => h hc.1
      · exact fun hc => h (hc.2 ▸ List.mem_cons_self q l)
    have h2 : k2 ≠ k ∨ p ∉ l := by
      rcases h with h | h
      · exact Or.inl h
      · exact Or.inr (fun hm => h (List.mem_cons_of_mem q hm))
    rw [ih (cadj c k q d) d h2, cadj_apply_other c d hq]

theorem adjAll_apply_some {k : RKey} {p : Nat} :
    ∀ (l : List Nat) (c : Cache) (d v : Int), c k p = some v →
      adjAll c k d l k p = some (v + d * (l.count p : Int)) := by
  intro l
  induction l with
  | nil => intro c d v hv; simpa using hv
  | cons q l ih =>
    intro c d v hv
    rw [adjAll_cons]
    by_cases hq : q = p
    · subst hq
      have h1 : cadj c k q d k q = some (v + d) := by
        rw [cadj_apply_same, hv]; rfl
      rw [ih (cadj c k q d) d (v + d) h1, List.count_cons_self]
      congr 1
      push_cast
      ring
    · have h1 : cadj c k q d k p = some v := by
        rw [cadj_apply_other c d (fun hc => hq hc.2.symm), hv]
      rw [ih (cadj c k q d) d v h1, List.count_cons_of_ne (fun hc => hq hc.symm)]

theorem adjAll_apply_none_mem {k : RKey} {p : Nat} :
    ∀ (l : List Nat) (c : Cache) (d : Int), c k p = none → p ∈ l →
      adjAll c k d l k p = some (d * (l.count p : Int)) := by
  intro l
  induction l with
  | nil => intro c d _ hm; cases hm
  | cons q l ih =>
    intro c d hn hm
    rw [adjAll_cons]
    by_cases hq : q = p
    · subst hq
      have h1 : cadj c k q d k q = some d := by
        rw [cadj_apply_same, hn]; simp
      rw [adjAll_apply_some l (cadj c k q d) d d h1, List.count_cons_self]
      congr 1
      push_cast
      ring
    · have h1 : cadj c k q d k p = none := by
        rw [cadj_apply_other c d (fun hc => hq hc.2.symm), hn]
      have hm2 : p ∈ l := by
        rcases List.mem_cons.mp hm with h | h
        · exact absurd h.symm hq
        · exact h
      rw [ih (cadj c k q d) d h1 hm2, List.count_cons_of_ne (fun hc => hq hc.symm)]

theorem adjAll_isSome_mono {k2 k : RKey} {p : Nat} (l : List Nat) (c : Cache) (d : Int)
    (h : (c k2 p).isSome = true) : (adjAll c k d l k2 p).isSome = true := by
  by_cases hk : k2 = k
  · subst hk
    by_cases hm : p ∈ l
    · obtain ⟨v, hv⟩ := Option.isSome_iff_exists.mp h
      rw [adjAll_apply_some l c d v hv]
      rfl
    · rw [adjAll_apply_not_mem l c d (Or.inr hm)]
      exact h
  · rw [adjAll_apply_not_mem l c d (Or.inl hk)]
    exact h

theorem adjAll_isSome_of_mem {k : RKey} {p : Nat} (l : List Nat) (c : Cache) (d : Int)
    (hm : p ∈ l) : (adjAll c k d l k p).isSome = true := by
  cases hv : c k p with
  | none => rw [adjAll_apply_none_mem l c d hv hm]; rfl
  | some v => rw [adjAll_apply_some l c d v hv]; rfl

theorem setAll_cons (c : Cache) (k : RKey) (g : Nat → Int) (q : Nat) (l : List Nat) :
    setAll c k g (q :: l) = setAll (cset c k q (g q)) k g l := rfl

theorem setAll_apply_not_mem {k2 k : RKey} {p : Nat} :
    ∀ (l : List Nat) (c : Cache) (g : Nat → Int), k2 ≠ k ∨ p ∉ l →
      setAll c k g l k2 p = c k2 p := by
  intro l
  induction l with
  | nil => intro c g _; rfl
  | cons q l ih =>
    intro c g h
    rw [setAll_cons]
    have hq : ¬(k2 = k ∧ p = q) := by
      rcases h with h | h
      · exact fun hc => h hc.1
      · exact fun hc => h (hc.2 ▸ List.mem_cons_self q l)
    have h2 : k2 ≠ k ∨ p ∉ l := by
      rcases h with h | h
      · exact Or.inl h
      · exact Or.inr (fun hm => h (List.mem_cons_of_mem q hm))
    rw [ih (cset c k q (g q)) g h2, cset_apply_other c (g q) hq]

theorem setAll_apply_mem {k : RKey} {p : Nat} :
    ∀ (l : List Nat) (c : Cache) (g : Nat → Int), p ∈ l →
      setAll c k g l k p = some (g p) := by
  intro l
  induction l with
  | nil => intro c g hm; cases hm
  | cons q l ih =>
    intro c g hm
    rw [setAll_cons]
    by_cases hl : p ∈ l
    · exact ih (cset c k q (g q)) g hl
    · have hq : p = q := by
        rcases List.mem_cons.mp hm with h | h
        · exact h
        · exact absurd h hl
      subst hq
      rw [setAll_apply_not_mem l (cset c k p (g p)) g (Or.inr hl)]
      exact cset_apply_same c k p (g p)

/-! ## Counter lemmas -/

theorem bump_apply (acc : Nat → Nat) (q p : Nat) :
    bump acc q p = if p = q then acc p + 1 else acc p := by
  by_cases h : p = q <;> simp [bump, Function.update_apply, h]

theorem bumpAll_apply : ∀ (l : List Nat) (acc : Nat → Nat) (p : Nat),
    bumpAll acc l p = acc p + l.count p := by
  intro l
  induction l with
  | nil => intro acc p; simp [bumpAll]
  | cons q l ih =>
    intro acc p
    have hstep : bumpAll acc (q :: l) = bumpAll (bump acc q) l := rfl
    rw [hstep, ih (bump acc q) p, bump_apply]
    by_cases h : p = q
    · subst h
      rw [if_pos rfl, List.count_cons_self]
      omega
    · rw [if_neg h, List.count_cons_of_ne h]

theorem compute_foldl (stated : HandHistory → List Nat) :
    ∀ (hands : List HandHistory) (acc : Nat → Nat) (p : Nat),
      (hands.foldl (fun a hh => bumpAll a (stated hh)) acc) p =
        acc p + (hands.map (fun hh => (stated hh).count p)).sum := by
  intro hands
  induction hands with
  | nil => intro acc p; simp
  | cons hh hs ih =>
    intro acc p
    have hstep : ((hh :: hs).foldl (fun a h2 => bumpAll a (stated h2)) acc) =
        (hs.foldl (fun a h2 => bumpAll a (stated h2)) (bumpAll acc (stated hh))) := rfl
    rw [hstep, ih (bumpAll acc (stated hh)) p, bumpAll_apply]
    simp [Nat.add_assoc]

theorem compute_apply (stated : HandHistory → List Nat) (db : Db) (p : Nat) :
    AbstractRedisStat.compute stated db p =
      (db.hands.map (fun hh => (stated hh).count p)).sum := by
  rw [AbstractRedisStat.compute, compute_foldl]
  simp [zeroCtr]

theorem mem_players_stated (hh : HandHistory) (p : Nat) :
    p ∈ AbstractRedisStat.players_stated hh ↔ p ∈ seatPlayers hh := by
  simp [AbstractRedisStat.players_stated, seatPlayers, List.mem_dedup]

theorem count_players_stated (hh : HandHistory) (p : Nat) :
    (AbstractRedisStat.players_stated hh).count p =
      if p ∈ seatPlayers hh then 1 else 0 := by
  simp [AbstractRedisStat.players_stated, seatPlayers, List.count_dedup]

theorem sum_ite_eq_length_filter {α : Type} (l : List α) (q : α → Prop) [DecidablePred q] :
    (l.map (fun x => if q x then 1 else 0)).sum = (l.filter (fun x => decide (q x))).length := by
  induction l with
  | nil => simp
  | cons x l ih => by_cases h : q x <;> simp [h, ih, Nat.add_comm]

theorem compute_pos_iff (stated : HandHistory → List Nat) (db : Db) (p : Nat) :
    0 < AbstractRedisStat.compute stated db p ↔ ∃ hh ∈ db.hands, p ∈ stated hh := by
  rw [compute_apply]
  induction db.hands with
  | nil => simp
  | cons x xs ih =>
    rw [List.map_cons, List.sum_cons]
    constructor
    · intro hpos
      by_cases hx : p ∈ stated x
      · exact ⟨x, List.mem_cons_self x xs, hx⟩
      · have hcz : (stated x).count p = 0 := List.count_eq_zero.mpr hx
        rw [hcz, Nat.zero_add] at hpos
        obtain ⟨hh, hmem, hp⟩ := ih.mp hpos
        exact ⟨hh, List.mem_cons_of_mem x hmem, hp⟩
    · rintro ⟨hh, hmem, hp⟩
      rcases List.mem_cons.mp hmem with h | h
      · subst h
        have : (stated hh).count p ≠ 0 := fun h0 => (List.count_eq_zero.mp h0) hp
        omega
      · have := ih.mpr ⟨hh, h, hp⟩
        omega

/-- Claim C1: the full recompute (`AbstractRedisStat.compute`, as returned by
`reset`) gives, for every player `p` and every database state, exactly the
number of `HandHistory` records in which `p` occupies at least one Seat; a
hand is counted once even when `p` has several seats in it. -/
theorem c1_compute_counts_seated_hands (db : Db) (p : Nat) :
    AbstractRedisStat.compute AbstractRedisStat.players_stated db p =
      (db.hands.filter (fun hh => decide (p ∈ seatPlayers hh))).length ∧
    (AbstractRedisStat.reset AbstractRedisStat.players_stated RKey.hands db cacheEmpty).2 p =
      (db.hands.filter (fun hh => decide (p ∈ seatPlayers hh))).length := by
  have h : AbstractRedisStat.compute AbstractRedisStat.players_stated db p =
      (db.hands.filter (fun hh => decide (p ∈ seatPlayers hh))).length := by
    rw [compute_apply]
    simp only [count_players_stated]
    exact sum_ite_eq_length_filter db.hands (fun hh => p ∈ seatPlayers hh)
  exact ⟨h, h⟩

/-- Claim C2: the vpip statistic is `100 * (number of hands in which the
player made at least one Call/Bet/Raise action) / max(hands-played, 1)`
(values derived by full recompute, i.e. reading through an empty cache), and
in the two-player Blind/Call scenario `vpip(A) = 0`, `vpip(B) = 100` and
`hands-played(A) = hands-played(B) = 1`. -/
theorem c2_vpip_formula_and_scenario :
    (∀ (db : Db) (p : Nat),
      Player.vpip db cacheEmpty p =
        100 * ((AbstractRedisStat.compute VpipStat.players_stated db p : Nat) : ℚ) /
          ((max (AbstractRedisStat.compute AbstractRedisStat.players_stated db p) 1 : Nat) : ℚ)) ∧
    Player.vpip db1 cacheEmpty 0 = 0 ∧
    Player.vpip db1 cacheEmpty 1 = 100 ∧
    Player.hands_played db1 cacheEmpty 0 = 1 ∧
    Player.hands_played db1 cacheEmpty 1 = 1 := by
  refine ⟨?_, ?_, ?_, by decide, by decide⟩
  · intro db p
    have hg : ∀ (stated : HandHistory → List Nat) (k : RKey) (p2 : Nat),
        AbstractRedisStat.get stated k db cacheEmpty p2 =
          ((AbstractRedisStat.compute stated db p2 : Nat) : Int) := by
      intro stated k p2
      rfl
    simp only [Player.vpip, Player.hands_played, hg]
    push_cast
    ring
  · have h1 : AbstractRedisStat.get VpipStat.players_stated RKey.vpip db1 cacheEmpty 0 = 0 := by
      decide
    have h2 : Player.hands_played db1 cacheEmpty 0 = 1 := by decide
    simp only [Player.vpip]
    rw [h1, h2]
    norm_num
  · have h1 : AbstractRedisStat.get VpipStat.players_stated RKey.vpip db1 cacheEmpty 1 = 1 := by
      decide
    have h2 : Player.hands_played db1 cacheEmpty 1 = 1 := by decide
    simp only [Player.vpip]
    rw [h1, h2]
    norm_num

/-- Claim C4: `AbstractRedisStat.get` returns the cached counter when the key
is present; when the key is absent it runs the full recompute (`reset`) and
returns the freshly computed value for the player, and a player absent from
the recompute result (zero computed count) yields 0 rather than an error. -/
theorem c4_get_hit_miss_semantics (stated : HandHistory → List Nat) (key_name : RKey)
    (db : Db) (c : Cache) (p : Nat) :
    (∀ v : Int, c key_name p = some v → AbstractRedisStat.get stated key_name db c p = v) ∧
    (c key_name p = none →
      AbstractRedisStat.get stated key_name db c p =
        (((AbstractRedisStat.reset stated key_name db c).2 p : Nat) : Int)) ∧
    (c key_name p = none → AbstractRedisStat.compute stated db p = 0 →
      AbstractRedisStat.get stated key_name db c p = 0) := by
  refine ⟨?_, ?_, ?_⟩
  · intro v hv
    simp [AbstractRedisStat.get, hv]
  · intro hn
    simp [AbstractRedisStat.get, hn]
  · intro hn hz
    simp only [AbstractRedisStat.get, hn]
    have h2 : (AbstractRedisStat.reset stated key_name db c).2 p = 0 := hz
    rw [h2]
    rfl

/-- Witness for C4 at concrete inputs: a cache hit returns the cached 7, a
miss on `db1` returns the reset-computed value, and a miss for the unseated
player 5 returns 0. -/
theorem c4_witness :
    AbstractRedisStat.get AbstractRedisStat.players_stated RKey.hands db1
        (cset cacheEmpty RKey.hands 0 7) 0 = 7 ∧
    AbstractRedisStat.get AbstractRedisStat.players_stated RKey.hands db1 cacheEmpty 0 =
      (((AbstractRedisStat.reset AbstractRedisStat.players_stated RKey.hands db1
          cacheEmpty).2 0 : Nat) : Int) ∧
    AbstractRedisStat.get AbstractRedisStat.players_stated RKey.hands db1 cacheEmpty 5 = 0 :=
  ⟨(c4_get_hit_miss_semantics AbstractRedisStat.players_stated RKey.hands db1
      (cset cacheEmpty RKey.hands 0 7) 0).1 7 (by decide),
   (c4_get_hit_miss_semantics AbstractRedisStat.players_stated RKey.hands db1
      cacheEmpty 0).2.1 (by decide),
   (c4_get_hit_miss_semantics AbstractRedisStat.players_stated RKey.hands db1
      cacheEmpty 5).2.2 (by decide) (by decide)⟩

/-! ## Hook bridges -/

theorem up_redis_create_eq_adjAll (hh : HandHistory) (c : Cache) :
    hh.up_redis_create c = adjAll c RKey.hands 1 (seatPlayers hh) := by
  simp only [HandHistory.up_redis_create, adjAll, seatPlayers, List.foldl_map, cincr]

theorem up_redis_delete_eq_adjAll (hh : HandHistory) (c : Cache) :
    hh.up_redis_delete c = adjAll c RKey.hands (-1) (seatPlayers hh) := by
  simp only [HandHistory.up_redis_delete, adjAll, seatPlayers, List.foldl_map, cdecr]

/-- Claim C5 (code-bug exhibit): starting from the reset-populated cache over
`db1`, deleting B's only Preflop Call fires the pre-delete hook
`Action.up_redis_delete`, which decrements the cached `hands` counter of
every seated player — both A's and B's drop from 1 to 0 — although the
deleted action leaves both Seats in place and the authoritative recompute
still counts the hand (recomputed `hands-played(B) = 1`, recomputed
`vpip(B) = 0`). -/
theorem c5_delete_action_decrements_cached_hands :
    cache1 RKey.hands 0 = some 1 ∧
    cache1 RKey.hands 1 = some 1 ∧
    (Action.up_redis_delete callB preflop1 hand1 cache1) RKey.hands 0 = some 0 ∧
    (Action.up_redis_delete callB preflop1 hand1 cache1) RKey.hands 1 = some 0 ∧
    AbstractRedisStat.compute AbstractRedisStat.players_stated db1del 1 = 1 ∧
    Player.hands_played db1del cacheEmpty 1 = 1 ∧
    Player.vpip db1del cacheEmpty 1 = 0 := by
  refine ⟨by decide, by decide, by decide, by decide, by decide, by decide, ?_⟩
  have h1 : AbstractRedisStat.get VpipStat.players_stated RKey.vpip db1del cacheEmpty 1 = 0 := by
    decide
  have h2 : Player.hands_played db1del cacheEmpty 1 = 1 := by decide
  simp only [Player.vpip]
  rw [h1, h2]
  norm_num

/-- Counterexample to claim C3 as stated: after a reset-populated cache, the
write-path hook fired for deleting B's Call (`Action.up_redis_delete`, via
`pre_delete`, with no compensating post-delete increment) leaves B's cached
`hands` counter at 0, which differs from the fresh full recompute (1) against
the resulting database state. -/
theorem c3_counterexample :
    (Action.up_redis_delete callB preflop1 hand1 cache1) RKey.hands 1 ≠
      some ((AbstractRedisStat.compute AbstractRedisStat.players_stated db1del 1 : Nat) : Int) := by
  decide

/-- Counterexample to claim C6 as stated: applying the Action-create
post-save hook (`Action.up_redis_create`) twice to the reset-populated cache
adds two increments to B's already-counted `hands` counter (1 becomes 3, not
the single-increment 2): there is no "already counted" guard. -/
theorem c6_counterexample :
    cache1 RKey.hands 1 = some 1 ∧
    (Action.up_redis_create callB preflop1 hand1
        (Action.up_redis_create callB preflop1 hand1 cache1)) RKey.hands 1 = some 3 ∧
    (3 : Int) ≠ 1 + 1 := by
  refine ⟨by decide, by decide, by decide⟩

/-- Claim C6 amended: the Action-create post-save hook is not idempotent.
Each application increments the `hands` counter of every seated player once
per seat, so two applications add `2 * (number of seats of that player)` to a
present key — there is no per-hand "already counted" guard. -/
theorem c6_create_hook_not_idempotent (a : Action) (st : Street) (hh : HandHistory)
    (c : Cache) (p : Nat) (v : Int) (hv : c RKey.hands p = some v) :
    Action.up_redis_create a st hh (Action.up_redis_create a st hh c) RKey.hands p =
      some (v + 2 * ((seatPlayers hh).count p : Int)) := by
  simp only [Action.up_redis_create, Street.up_redis_create, up_redis_create_eq_adjAll]
  have h1 := adjAll_apply_some (seatPlayers hh) c 1 v hv
  have h2 := adjAll_apply_some (seatPlayers hh) (adjAll c RKey.hands 1 (seatPlayers hh)) 1
    (v + 1 * ((seatPlayers hh).count p : Int)) h1
  rw [h2]
  congr 1
  ring

/-- Witness for the amended C6 at the concrete scenario: B (one seat) starts
at a cached 1 and ends at `1 + 2 * 1` after two hook applications. -/
theorem c6_witness :
    Action.up_redis_create callB preflop1 hand1
        (Action.up_redis_create callB preflop1 hand1 cache1) RKey.hands 1 =
      some (1 + 2 * ((seatPlayers hand1).count 1 : Int)) :=
  c6_create_hook_not_idempotent callB preflop1 hand1 cache1 1 1 (by decide)

/-- Counterexample to claim C7 as stated: for a street whose single existing
action has `sequence_no = 5`, the write path assigns `2`
(count of existing actions plus one), not the spec's `max + 1 = 6`. -/
theorem c7_counterexample :
    (ActionSerializer.create
        [{ street := 7, sequence_no := 5, player := 0, action := 0, amount := 0 }]
        7 none 0 0 0).2.sequence_no = 2 ∧
    specMaxSeqSucc [{ street := 7, sequence_no := 5, player := 0, action := 0, amount := 0 }] 7 = 6 ∧
    (2 : Int) ≠ 6 := by
  refine ⟨by decide, by decide, by decide⟩

/-- Claim C7 amended: when an Action is created without an explicit
`sequence_no`, the write path assigns the number of that street's existing
actions plus one (`.count() + 1`), not the maximum existing sequence number
plus one. -/
theorem c7_assigned_seq_is_count_succ (rows : List ActionRow) (street player action : Nat)
    (amount : Int) :
    (ActionSerializer.create rows street none player action amount).2.sequence_no =
      ((rows.filter (fun r => r.street == street)).length : Int) + 1 := rfl

/-- Counterexample to claim C8 as stated: with street 1 holding actions with
sequence numbers 2 and 3, posting an Action without an explicit
`sequence_no` bypasses the duplicate check (`validate` only fires when both
fields are supplied), assigns `count + 1 = 3`, and stores a duplicate
`(street, sequence_no) = (1, 3)` pair: the table ends up with two such rows
and no validation error. -/
theorem c8_counterexample :
    ActionSerializer.post
        [{ street := 1, sequence_no := 2, player := 0, action := 0, amount := 0 },
         { street := 1, sequence_no := 3, player := 0, action := 0, amount := 0 }]
        1 none 0 0 0 =
      Except.ok
        ([{ street := 1, sequence_no := 2, player := 0, action := 0, amount := 0 },
          { street := 1, sequence_no := 3, player := 0, action := 0, amount := 0 },
          { street := 1, sequence_no := 3, player := 0, action := 0, amount := 0 }],
         { street := 1, sequence_no := 3, player := 0, action := 0, amount := 0 }) ∧
    (([{ street := 1, sequence_no := 2, player := 0, action := 0, amount := 0 },
       { street := 1, sequence_no := 3, player := 0, action := 0, amount := 0 },
       { street := 1, sequence_no := 3, player := 0, action := 0, amount := 0 }] : List ActionRow).filter
        (fun r => r.street == 1 && r.sequence_no == 3)).length = 2 := by
  refine ⟨by rfl, by decide⟩

/-- Claim C8 amended: the duplicate-pair check rejects the write, before any
mutation, exactly on the creation path that supplies both `street` and
`sequence_no` explicitly; when the pair already exists the POST returns the
validation error and stores nothing. -/
theorem c8_explicit_seq_duplicate_rejected (rows : List ActionRow) (street : Nat) (seq : Int)
    (player action : Nat) (amount : Int)
    (hdup : ∃ r ∈ rows, r.street = street ∧ r.sequence_no = seq) :
    ActionSerializer.post rows street (some seq) player action amount =
      Except.error ["street", "sequence_no", "Street and sequence_no must be unique per Action"] := by
  obtain ⟨r, hr, h1, h2⟩ := hdup
  have hmem : r ∈ rows.filter (fun r2 => r2.street == street && r2.sequence_no == seq) :=
    List.mem_filter.mpr ⟨hr, by simp [h1, h2]⟩
  have hlen : (rows.filter (fun r2 => r2.street == street && r2.sequence_no == seq)).length ≠ 0 := by
    have := List.length_pos.mpr (List.ne_nil_of_mem hmem)
    omega
  have hcond : ((rows.filter
      (fun r2 => r2.street == street && r2.sequence_no == seq)).length != 0) = true :=
    bne_iff_ne.mpr hlen
  simp [ActionSerializer.post, ActionSerializer.validate, hcond]

/-- Witness for the amended C8: posting a duplicate `(street, sequence_no)`
pair explicitly is rejected with the validation error. -/
theorem c8_witness :
    ActionSerializer.post
        [{ street := 1, sequence_no := 1, player := 0, action := 0, amount := 100 }]
        1 (some 1) 0 0 50 =
      Except.error ["street", "sequence_no", "Street and sequence_no must be unique per Action"] :=
  c8_explicit_seq_duplicate_rejected
    [{ street := 1, sequence_no := 1, player := 0, action := 0, amount := 100 }] 1 1 0 0 50
    ⟨{ street := 1, sequence_no := 1, player := 0, action := 0, amount := 100 }, by decide⟩

/-- Claim C10: posting a Seat or Action whose player field names an unknown
player does not fail: `PlayerName.to_internal_value` creates a Player with
that name, the posted object is linked to it, and afterwards a player with
that name exists in the table and is the one referenced. -/
theorem c10_unknown_player_created (players : List PlayerRow) (data : String)
    (hnew : ∀ r ∈ players, r.name ≠ data) :
    (PlayerName.to_internal_value players data).1 =
        players ++ [{ id := freshPlayerId players, name := data }] ∧
    (PlayerName.to_internal_value players data).2.name = data ∧
    (PlayerName.to_internal_value players data).2 ∈ (PlayerName.to_internal_value players data).1 := by
  have hfind : players.find? (fun r => r.name == data) = none := by
    rw [List.find?_eq_none]
    intro r hr
    simp [hnew r hr]
  refine ⟨?_, ?_, ?_⟩ <;> simp [PlayerName.to_internal_value, hfind]

/-- Witness for C10: posting with the unknown name `Alice` against a table
holding only `Bob` creates and links a new `Alice` row. -/
theorem c10_witness :
    (PlayerName.to_internal_value [{ id := 1, name := "Bob" }] "Alice").1 =
        [{ id := 1, name := "Bob" }] ++
          [{ id := freshPlayerId [{ id := 1, name := "Bob" }], name := "Alice" }] ∧
    (PlayerName.to_internal_value [{ id := 1, name := "Bob" }] "Alice").2.name = "Alice" ∧
    (PlayerName.to_internal_value [{ id := 1, name := "Bob" }] "Alice").2 ∈
      (PlayerName.to_internal_value [{ id := 1, name := "Bob" }] "Alice").1 :=
  c10_unknown_player_created [{ id := 1, name := "Bob" }] "Alice" (by decide)

/-! ## Effect of creation events on the recomputed `hands` counter -/

theorem applyEventDb_players (db : Db) (e : CreateEvent) :
    (applyEventDb db e).players = db.players := by
  cases e <;> rfl

theorem compute_hands_newHand (db : Db) (p : Nat) :
    AbstractRedisStat.compute AbstractRedisStat.players_stated
        (applyEventDb db CreateEvent.newHand) p =
      AbstractRedisStat.compute AbstractRedisStat.players_stated db p := by
  rw [compute_apply, compute_apply]
  simp [applyEventDb, AbstractRedisStat.players_stated, dHand]

theorem map_modifyAt_congr {α β : Type} :
    ∀ (l : List α) (i : Nat) (f : α → α) (m : α → β), (∀ x, m (f x) = m x) →
      (modifyAt l i f).map m = l.map m := by
  intro l
  induction l with
  | nil => intro i f m _; rfl
  | cons x xs ih =>
    intro i f m hm
    cases i with
    | zero => simp [modifyAt, hm x]
    | succ i => simp [modifyAt, ih i f m hm]

theorem players_stated_addStreetFn (street_name : Nat) (cards : Option (List String))
    (hh : HandHistory) :
    AbstractRedisStat.players_stated (addStreetFn street_name cards hh) =
      AbstractRedisStat.players_stated hh := rfl

theorem players_stated_addActionFn (i : Nat) (a : Action) (hh : HandHistory) :
    AbstractRedisStat.players_stated (addActionFn i a hh) =
      AbstractRedisStat.players_stated hh := rfl

theorem compute_hands_newStreet (db : Db) (h street_name : Nat) (cards : Option (List String))
    (p : Nat) :
    AbstractRedisStat.compute AbstractRedisStat.players_stated
        (applyEventDb db (CreateEvent.newStreet h street_name cards)) p =
      AbstractRedisStat.compute AbstractRedisStat.players_stated db p := by
  rw [compute_apply, compute_apply]
  simp only [applyEventDb]
  rw [map_modifyAt_congr]
  intro x
  rw [players_stated_addStreetFn]

theorem compute_hands_newAction (db : Db) (h i : Nat) (a : Action) (p : Nat) :
    AbstractRedisStat.compute AbstractRedisStat.players_stated
        (applyEventDb db (CreateEvent.newAction h i a)) p =
      AbstractRedisStat.compute AbstractRedisStat.players_stated db p := by
  rw [compute_apply, compute_apply]
  simp only [applyEventDb]
  rw [map_modifyAt_congr]
  intro x
  rw [players_stated_addActionFn]

theorem seatPlayers_addSeatFn (s : Seat) (hh : HandHistory) :
    seatPlayers (addSeatFn s hh) = seatPlayers hh ++ [s.player_id] := by
  simp [seatPlayers, addSeatFn]

theorem count_players_stated_addSeatFn (s : Seat) (hh : HandHistory) (p : Nat)
    (hnot : s.player_id ∉ AbstractRedisStat.players_stated hh) :
    (AbstractRedisStat.players_stated (addSeatFn s hh)).count p =
      (AbstractRedisStat.players_stated hh).count p + (if p = s.player_id then 1 else 0) := by
  rw [count_players_stated, count_players_stated, seatPlayers_addSeatFn]
  have hnot2 : s.player_id ∉ seatPlayers hh := fun hm => hnot ((mem_players_stated hh _).mpr hm)
  by_cases hp : p = s.player_id
  · subst hp
    rw [if_pos (by simp), if_neg hnot2, if_pos rfl]
  · rw [if_neg hp]
    by_cases hmem : p ∈ seatPlayers hh
    · rw [if_pos (by simp [hmem]), if_pos hmem]
    · rw [if_neg (by simp [hmem, hp]), if_neg hmem]

theorem sum_count_modifyAt_addSeat :
    ∀ (hands : List HandHistory) (h : Nat) (s : Seat) (p : Nat), h < hands.length →
      s.player_id ∉ AbstractRedisStat.players_stated (hands.getD h dHand) →
      ((modifyAt hands h (addSeatFn s)).map
          (fun hh => (AbstractRedisStat.players_stated hh).count p)).sum =
        (hands.map (fun hh => (AbstractRedisStat.players_stated hh).count p)).sum +
          (if p = s.player_id then 1 else 0) := by
  intro hands
  induction hands with
  | nil => intro h s p hlt _; simp at hlt
  | cons x xs ih =>
    intro h s p hlt hnot
    cases h with
    | zero =>
      have hx := count_players_stated_addSeatFn s x p (by simpa [List.getD_cons_zero] using hnot)
      simp only [modifyAt, List.map_cons, List.sum_cons, hx]
      omega
    | succ h =>
      have hlt2 : h < xs.length := by simpa using hlt
      have hnot2 : s.player_id ∉ AbstractRedisStat.players_stated (xs.getD h dHand) := by
        simpa [List.getD_cons_succ] using hnot
      simp only [modifyAt, List.map_cons, List.sum_cons]
      rw [ih h s p hlt2 hnot2]
      omega

theorem compute_hands_newSeat (db : Db) (h : Nat) (s : Seat) (p : Nat)
    (hlt : h < db.hands.length)
    (hnot : s.player_id ∉ AbstractRedisStat.players_stated (db.hands.getD h dHand)) :
    AbstractRedisStat.compute AbstractRedisStat.players_stated
        (applyEventDb db (CreateEvent.newSeat h s)) p =
      AbstractRedisStat.compute AbstractRedisStat.players_stated db p +
        (if p = s.player_id then 1 else 0) := by
  rw [compute_apply, compute_apply]
  simp only [applyEventDb]
  exact sum_count_modifyAt_addSeat db.hands h s p hlt hnot

theorem compute_pos_of_mem_getD (db : Db) (h p : Nat) (hlt : h < db.hands.length)
    (hp : p ∈ AbstractRedisStat.players_stated (db.hands.getD h dHand)) :
    0 < AbstractRedisStat.compute AbstractRedisStat.players_stated db p := by
  apply (compute_pos_iff _ db p).mpr
  refine ⟨db.hands.getD h dHand, ?_, hp⟩
  rw [List.getD_eq_getElem db.hands dHand hlt]
  exact List.getElem_mem hlt

theorem compute_zero_of_none (db : Db) (c : Cache) (p : Nat) (hinv : CacheInv db c)
    (hn : c RKey.hands p = none) :
    AbstractRedisStat.compute AbstractRedisStat.players_stated db p = 0 := by
  by_contra hnz
  have hpos : 0 < AbstractRedisStat.compute AbstractRedisStat.players_stated db p :=
    Nat.pos_of_ne_zero hnz
  have := hinv.2 p (Or.inr hpos)
  rw [hn] at this
  cases this

/-! ## The invariant step -/

theorem inv_cancel (db : Db) (c : Cache) (h : Nat) (hinv : CacheInv db c) (p : Nat) :
    (adjAll (adjAll c RKey.hands (-1) (seatPlayers (db.hands.getD h dHand))) RKey.hands 1
        (seatPlayers (db.hands.getD h dHand))) RKey.hands p = c RKey.hands p := by
  by_cases hpo : p ∈ seatPlayers (db.hands.getD h dHand)
  · have hlt : h < db.hands.length := by
      by_contra hge
      rw [List.getD_eq_default db.hands dHand (Nat.le_of_not_lt hge)] at hpo
      cases hpo
    have hpos := compute_pos_of_mem_getD db h p hlt
      ((mem_players_stated _ _).mpr hpo)
    obtain ⟨w, hw⟩ := Option.isSome_iff_exists.mp (hinv.2 p (Or.inr hpos))
    have h1 := adjAll_apply_some (seatPlayers (db.hands.getD h dHand)) c (-1) w hw
    have h2 := adjAll_apply_some (seatPlayers (db.hands.getD h dHand))
      (adjAll c RKey.hands (-1) (seatPlayers (db.hands.getD h dHand))) 1 _ h1
    rw [h2, hw]
    congr 1
    ring
  · rw [adjAll_apply_not_mem _ _ 1 (Or.inr hpo), adjAll_apply_not_mem _ c (-1) (Or.inr hpo)]

theorem inv_step (db : Db) (c : Cache) (e : CreateEvent)
    (hok : eventOK db e = true) (hinv : CacheInv db c) :
    CacheInv (applyEventDb db e) (hookCache db c e) := by
  have hA := hinv.1
  have hB := hinv.2
  cases e with
  | newHand =>
    constructor
    · intro p v hv
      rw [compute_hands_newHand]
      exact hA p v hv
    · intro p hp
      rw [applyEventDb_players, compute_hands_newHand] at hp
      exact hB p hp
  | newSeat h s =>
    have hok2 : h < db.hands.length ∧
        s.player_id ∉ AbstractRedisStat.players_stated (db.hands.getD h dHand) := by
      simpa [eventOK] using hok
    obtain ⟨hlt, hnot⟩ := hok2
    have hsp_not_old : s.player_id ∉ seatPlayers (db.hands.getD h dHand) :=
      fun hm => hnot ((mem_players_stated _ _).mpr hm)
    constructor
    · intro p v hv
      simp only [hookCache] at hv
      rw [compute_hands_newSeat db h s p hlt hnot]
      by_cases hps : p = s.player_id
      · rw [if_pos hps]
        rw [← hps] at hv
        have hpo : p ∉ seatPlayers (db.hands.getD h dHand) := by
          rw [hps]
          exact hsp_not_old
        have h1 : adjAll c RKey.hands (-1) (seatPlayers (db.hands.getD h dHand))
            RKey.hands p = c RKey.hands p :=
          adjAll_apply_not_mem _ c (-1) (Or.inr hpo)
        have hcnt : (seatPlayers (db.hands.getD h dHand) ++ [p]).count p = 1 := by
          rw [List.count_append, List.count_eq_zero.mpr hpo]
          simp
        cases hc : c RKey.hands p with
        | none =>
          have h2 := adjAll_apply_none_mem (seatPlayers (db.hands.getD h dHand) ++ [p])
            (adjAll c RKey.hands (-1) (seatPlayers (db.hands.getD h dHand))) 1
            (h1.trans hc) (by simp)
          rw [h2, hcnt] at hv
          have hv2 := Option.some.inj hv
          have hz := compute_zero_of_none db c p hinv hc
          rw [hz]
          omega
        | some w =>
          have h2 := adjAll_apply_some (seatPlayers (db.hands.getD h dHand) ++ [p])
            (adjAll c RKey.hands (-1) (seatPlayers (db.hands.getD h dHand))) 1 w
            (h1.trans hc)
          rw [h2, hcnt] at hv
          have hv2 := Option.some.inj hv
          have hw := hA p w hc
          omega
      · rw [if_neg hps, Nat.add_zero]
        have hz1 : List.count p [s.player_id] = 0 := List.count_eq_zero.mpr (by simp [hps])
        have hskip : (seatPlayers (db.hands.getD h dHand) ++ [s.player_id]).count p =
            (seatPlayers (db.hands.getD h dHand)).count p := by
          rw [List.count_append, hz1, Nat.add_zero]
        by_cases hpo : p ∈ seatPlayers (db.hands.getD h dHand)
        · have hpos := compute_pos_of_mem_getD db h p hlt
            ((mem_players_stated _ _).mpr hpo)
          obtain ⟨w, hw⟩ := Option.isSome_iff_exists.mp (hB p (Or.inr hpos))
          have h1 := adjAll_apply_some (seatPlayers (db.hands.getD h dHand)) c (-1) w hw
          have h2 := adjAll_apply_some (seatPlayers (db.hands.getD h dHand) ++ [s.player_id])
            (adjAll c RKey.hands (-1) (seatPlayers (db.hands.getD h dHand))) 1 _ h1
          rw [h2, hskip] at hv
          have hv2 := Option.some.inj hv
          have hweq := hA p w hw
          omega
        · have hno2 : p ∉ seatPlayers (db.hands.getD h dHand) ++ [s.player_id] := by
            intro hm
            rcases List.mem_append.mp hm with hm1 | hm2
            · exact hpo hm1
            · exact hps (List.mem_singleton.mp hm2)
          rw [adjAll_apply_not_mem _ _ 1 (Or.inr hno2),
            adjAll_apply_not_mem _ c (-1) (Or.inr hpo)] at hv
          exact hA p v hv
    · intro p hp
      simp only [hookCache]
      by_cases hps : p = s.player_id
      · rw [hps]
        exact adjAll_isSome_of_mem _ _ 1 (by simp)
      · rw [applyEventDb_players, compute_hands_newSeat db h s p hlt hnot,
          if_neg hps, Nat.add_zero] at hp
        exact adjAll_isSome_mono _ _ 1 (adjAll_isSome_mono _ c (-1) (hB p hp))
  | newStreet h street_name cards =>
    constructor
    · intro p v hv
      simp only [hookCache] at hv
      rw [compute_hands_newStreet]
      exact hA p v hv
    · intro p hp
      simp only [hookCache]
      rw [applyEventDb_players, compute_hands_newStreet] at hp
      exact hB p hp
  | newAction h i a =>
    constructor
    · intro p v hv
      simp only [hookCache] at hv
      rw [inv_cancel db c h hinv p] at hv
      rw [compute_hands_newAction]
      exact hA p v hv
    · intro p hp
      simp only [hookCache]
      rw [applyEventDb_players, compute_hands_newAction] at hp
      rw [inv_cancel db c h hinv p]
      exact hB p hp

theorem applyEvents_cons (db : Db) (c : Cache) (e : CreateEvent) (es : List CreateEvent) :
    applyEvents db c (e :: es) = applyEvents (applyEventDb db e) (hookCache db c e) es := rfl

theorem applyEvents_players : ∀ (es : List CreateEvent) (db : Db) (c : Cache),
    (applyEvents db c es).1.players = db.players := by
  intro es
  induction es with
  | nil => intro db c; rfl
  | cons e es ih =>
    intro db c
    rw [applyEvents_cons, ih, applyEventDb_players]

theorem inv_steps : ∀ (es : List CreateEvent) (db : Db) (c : Cache),
    eventsOK db es = true → CacheInv db c →
    CacheInv (applyEvents db c es).1 (applyEvents db c es).2 := by
  intro es
  induction es with
  | nil => intro db c _ hinv; exact hinv
  | cons e es ih =>
    intro db c hok hinv
    have hok2 : eventOK db e = true ∧ eventsOK (applyEventDb db e) es = true := by
      simpa [eventsOK] using hok
    rw [applyEvents_cons]
    exact ih _ _ hok2.2 (inv_step db c e hok2.1 hinv)

theorem reset_cacheInv (db : Db) (hint : dbIntegrity db = true) :
    CacheInv db
      (AbstractRedisStat.reset AbstractRedisStat.players_stated RKey.hands db cacheEmpty).1 := by
  have hint2 : ∀ hh ∈ db.hands, ∀ p ∈ AbstractRedisStat.players_stated hh, p ∈ db.players :=
    of_decide_eq_true hint
  have hres : (AbstractRedisStat.reset AbstractRedisStat.players_stated RKey.hands db
      cacheEmpty).1 =
      setAll cacheEmpty RKey.hands
        (fun p => (AbstractRedisStat.compute AbstractRedisStat.players_stated db p : Int))
        db.players := rfl
  constructor
  · intro p v hv
    rw [hres] at hv
    by_cases hp : p ∈ db.players
    · rw [setAll_apply_mem db.players cacheEmpty _ hp] at hv
      exact (Option.some.inj hv).symm
    · rw [setAll_apply_not_mem db.players cacheEmpty _ (Or.inr hp)] at hv
      cases hv
  · intro p hp
    rw [hres]
    have hmem : p ∈ db.players := by
      rcases hp with hp | hp
      · exact hp
      · obtain ⟨hh, hhmem, hph⟩ := (compute_pos_iff _ db p).mp hp
        exact hint2 hh hhmem p hph
    rw [setAll_apply_mem db.players cacheEmpty _ hmem]
    rfl

/-- Claim C3 amended: the round-trip holds for the hands-played statistic
under creation-only write sequences in which no created Seat reseats a
player already seated in the target hand.  Starting from a cache populated
by `reset` (over an empty cache, on a database satisfying referential
integrity), applying the incremental updates the write-path hooks fire for
such a sequence of HandHistory/Seat/Street/Action creations (Street saves
being filtered out by the handlers and firing no hook) leaves, for every
player in the players table (and every player seated afterwards), a cached
counter equal to a fresh full recompute against the resulting database.
Both restrictions are necessary: a Seat/Street/Action deletion fires only
the decrement hook and vpip counters are never incrementally maintained
(see the counterexample), and a duplicate-seat creation — which the program
does not forbid — also breaks the round-trip, since the post-save hook
increments once per seat while the recompute counts distinct players per
hand (see `dup_seat_breaks_roundtrip`). -/
theorem c3_reset_then_create_hooks_eq_recompute (db : Db) (es : List CreateEvent)
    (hint : dbIntegrity db = true) (hok : eventsOK db es = true) (p : Nat)
    (hp : p ∈ db.players ∨
      0 < AbstractRedisStat.compute AbstractRedisStat.players_stated
        (applyEvents db (AbstractRedisStat.reset AbstractRedisStat.players_stated RKey.hands db
          cacheEmpty).1 es).1 p) :
    (applyEvents db (AbstractRedisStat.reset AbstractRedisStat.players_stated RKey.hands db
        cacheEmpty).1 es).2 RKey.hands p =
      some ((AbstractRedisStat.compute AbstractRedisStat.players_stated
        (applyEvents db (AbstractRedisStat.reset AbstractRedisStat.players_stated RKey.hands db
          cacheEmpty).1 es).1 p : Nat) : Int) := by
  have hinv := inv_steps es db
    (AbstractRedisStat.reset AbstractRedisStat.players_stated RKey.hands db cacheEmpty).1
    hok (reset_cacheInv db hint)
  have hp2 : p ∈ (applyEvents db (AbstractRedisStat.reset AbstractRedisStat.players_stated
      RKey.hands db cacheEmpty).1 es).1.players ∨
      0 < AbstractRedisStat.compute AbstractRedisStat.players_stated
        (applyEvents db (AbstractRedisStat.reset AbstractRedisStat.players_stated RKey.hands db
          cacheEmpty).1 es).1 p := by
    rcases hp with hp | hp
    · refine Or.inl ?_
      rw [applyEvents_players]
      exact hp
    · exact Or.inr hp
  obtain ⟨w, hw⟩ := Option.isSome_iff_exists.mp (hinv.2 p hp2)
  rw [hw, hinv.1 p w hw]

/-- Necessity of the no-reseat hypothesis in the amended C3: the program
allows seating a player twice in one hand, and such a creation breaks the
round-trip even in a creation-only sequence — after a reset over `db1`,
re-seating player A in hand 0 leaves A's cached `hands` counter at 2 (the
pre-save hook decrements once per existing seat, the post-save hook
increments once per seat including the duplicate) while the fresh recompute,
which deduplicates seats per hand, still gives 1. -/
theorem dup_seat_breaks_roundtrip :
    (applyEvents db1 (AbstractRedisStat.reset AbstractRedisStat.players_stated RKey.hands db1
        cacheEmpty).1 [CreateEvent.newSeat 0 { player_id := 0, seat := 2, chips := 100 }]).2
      RKey.hands 0 = some 2 ∧
    AbstractRedisStat.compute AbstractRedisStat.players_stated
      (applyEvents db1 (AbstractRedisStat.reset AbstractRedisStat.players_stated RKey.hands db1
        cacheEmpty).1 [CreateEvent.newSeat 0 { player_id := 0, seat := 2, chips := 100 }]).1
      0 = 1 ∧
    (2 : Int) ≠ 1 := by
  refine ⟨by decide, by decide, by decide⟩

/-- Witness for the amended C3: on the concrete scenario database, after a
reset and the demo creation events (a new hand, then a new seat in it),
player A's cached counter equals the fresh recompute. -/
theorem c3_witness :
    (applyEvents db1 (AbstractRedisStat.reset AbstractRedisStat.players_stated RKey.hands db1
        cacheEmpty).1 esDemo).2 RKey.hands 0 =
      some ((AbstractRedisStat.compute AbstractRedisStat.players_stated
        (applyEvents db1 (AbstractRedisStat.reset AbstractRedisStat.players_stated RKey.hands db1
          cacheEmpty).1 esDemo).1 0 : Nat) : Int) :=
  c3_reset_then_create_hooks_eq_recompute db1 esDemo (by decide) (by decide) 0
    (Or.inl (by decide))

/-! ## Unreachable cache -/

theorem up_redis_delete_f_unreachable (hh : HandHistory) (c : Cache) (hs : hh.seats ≠ []) :
    up_redis_delete_f false hh c = Except.error connectionError := by
  cases hseats : hh.seats with
  | nil => exact absurd hseats hs
  | cons s rest =>
    unfold up_redis_delete_f
    rw [hseats]
    rfl

/-- Counterexample to claim C9 as stated: with the cache unreachable (every
cache call raising), saving an Action of the scenario hand does not succeed
against the event-log store — the `pre_save` hook's exception propagates to
the writer and the mutation never happens. -/
theorem c9_counterexample :
    save_with_hooks false Sender.action hand1 hand1
      (fun db2 => { db2 with hands := db2.hands ++ [dHand] }) db1 cacheEmpty =
      Except.error connectionError := rfl

/-- Claim C9 amended: when the cache store is unreachable, a
create/update/delete whose sender passes the signal-handler filter (Hand,
Seat or Action) and whose parent hand has at least one seat fails: the first
failing cache call in the `pre_save` / `pre_delete` hook raises, the
exception propagates to the writer unhandled (the hooks contain no exception
recovery), and the event-log mutation is not applied.  A sender outside the
filter — in particular Street, for which `handle_pre_save` /
`handle_post_save` return early — makes no cache call, so its write still
succeeds with the cache down. -/
theorem c9_unreachable_cache_blocks_write (sender : Sender)
    (pre_hand post_hand : HandHistory) (mutate : Db → Db) (db : Db) (c : Cache) :
    (sender_hooked sender = true → pre_hand.seats ≠ [] →
      save_with_hooks false sender pre_hand post_hand mutate db c =
        Except.error connectionError) ∧
    (sender_hooked sender = false →
      save_with_hooks false sender pre_hand post_hand mutate db c =
        Except.ok (mutate db, c)) := by
  constructor
  · intro hs hseats
    simp only [save_with_hooks, hs, if_true, up_redis_delete_f_unreachable pre_hand c hseats]
    rfl
  · intro hs
    simp only [save_with_hooks, hs, Bool.false_eq_true, if_false]
    rfl

/-- Witness for the amended C9 at concrete inputs: an Action save of the
seated scenario hand fails with the cache down, while a Street save (sender
filtered out by the handlers) still succeeds. -/
theorem c9_witness :
    save_with_hooks false Sender.action hand1 hand1 (fun db2 => db2) db1 cacheEmpty =
      Except.error connectionError ∧
    save_with_hooks false Sender.street hand1 hand1 (fun db2 => db2) db1 cacheEmpty =
      Except.ok (db1, cacheEmpty) :=
  ⟨(c9_unreachable_cache_blocks_write Sender.action hand1 hand1 (fun db2 => db2) db1
      cacheEmpty).1 (by decide) (by decide),
   (c9_unreachable_cache_blocks_write Sender.street hand1 hand1 (fun db2 => db2) db1
      cacheEmpty).2 (by decide)⟩

end Poker
